import Mathlib

/-!
Verification of the client-side authorization decision cache and the
server-sent-events (SSE) invalidation subscriber, shallowly embedded from
`clients/python/mcp/cache.py` and `clients/python/mcp/sse.py`.

Timestamps, TTLs and delays are modelled as `Int` (the code uses floats
only as a clock; no claim depends on fractional values).  The Python
`dict` backing the cache is modelled as an insertion-ordered association
list with unique keys, which matches CPython dict semantics: assignment
of an existing key overwrites in place, assignment of a new key appends,
deletion removes the key, and iteration is in insertion order.
-/

namespace Beowulf

/-! Part: JSON values appearing in a request context

Per the data model, context values are strings, integers or booleans. -/

inductive JsonVal where
  | jstr (s : String)
  | jint (n : Int)
  | jbool (b : Bool)
deriving DecidableEq

/-- Rendering of a single JSON scalar, as `json.dumps` renders it
(string escaping is elided: context keys and values in the claims are
plain identifiers). -/
def JsonVal.render : JsonVal → String
  | .jstr s => "\"" ++ s ++ "\""
  | .jint n => toString n
  | .jbool b => if b then "true" else "false"

/-- Ordering of object entries by key, as `json.dumps(..., sort_keys=True)`
sorts them: Python compares strings lexicographically by code point,
which is the lexicographic order on the underlying character lists
(compared directly so that the order is kernel-computable). -/
def keyLE (a b : String × JsonVal) : Prop := a.1.data ≤ b.1.data

instance : DecidableRel keyLE :=
  fun a b => inferInstanceAs (Decidable (a.1.data ≤ b.1.data))

/-- Source `json.dumps(obj, sort_keys=True)` for a flat string-keyed object:
entries sorted by key, rendered `"k": v`, joined by `", "` inside braces. -/
def dumpsObj (l : List (String × JsonVal)) : String :=
  "\x7b" ++
    String.intercalate ", "
      ((List.insertionSort keyLE l).map (fun p => "\"" ++ p.1 ++ "\": " ++ p.2.render)) ++
  "\x7d"

/-! Part: Key derivation — `AuthzCache._make_key`

The source builds a canonical JSON string (outer dict also rendered with
`sort_keys=True`) and returns its SHA-256 hex digest.  SHA-256 is a fixed
pure function applied on top of the canonical string and the store treats
keys opaquely, so we model the cache key as the canonical string itself:
equality of these strings is exactly what equality of the digests follows
from. -/

def make_key (app_id : Int) (principal_type principal_id action
    resource_type resource_id : String)
    (context : Option (List (String × JsonVal))) : String :=
  dumpsObj
    [("app_id", .jint app_id),
     ("principal", .jstr (principal_type ++ "::" ++ principal_id)),
     ("action", .jstr action),
     ("resource", .jstr (resource_type ++ "::" ++ resource_id)),
     ("context", .jstr (dumpsObj (context.getD [])))]

/-! Part: Cache entries — `CacheEntry` -/

structure CacheEntry where
  allowed : Bool
  reasons : List String
  timestamp : Int
  ttl : Int
deriving DecidableEq

/-- Source `CacheEntry.is_expired`: `time.time() > self.timestamp + self.ttl`,
with the current time passed explicitly. -/
def CacheEntry.is_expired (e : CacheEntry) (now : Int) : Bool :=
  now > e.timestamp + e.ttl

/-! Part: The store — `AuthzCache` -/

structure AuthzCache where
  cache : List (String × CacheEntry)
  default_ttl : Int
  max_size : Nat
  hits : Nat
  misses : Nat
  invalidations : Nat
deriving DecidableEq

/-- Python `dict.get`: the entry stored under `k`, if any. -/
def lookupEntry : List (String × CacheEntry) → String → Option CacheEntry
  | [], _ => none
  | (k', e) :: rest, k => if k' = k then some e else lookupEntry rest k

/-- Python `del d[k]`: removes the (unique) binding of `k`. -/
def removeKey : List (String × CacheEntry) → String → List (String × CacheEntry)
  | [], _ => []
  | (k', e) :: rest, k => if k' = k then rest else (k', e) :: removeKey rest k

/-- Python `d[k] = e`: overwrite in place if present, else append. -/
def insertEntry : List (String × CacheEntry) → String → CacheEntry →
    List (String × CacheEntry)
  | [], k, e => [(k, e)]
  | (k', e') :: rest, k, e =>
    if k' = k then (k', e) :: rest else (k', e') :: insertEntry rest k e

/-- Source `AuthzCache._evict_expired`: delete every currently-expired entry
(iteration order preserved for the survivors). -/
def evict_expired (c : List (String × CacheEntry)) (now : Int) :
    List (String × CacheEntry) :=
  c.filter (fun p => !(p.2.is_expired now))

/-- Source `min(self._cache.keys(), key=lambda k: self._cache[k].timestamp)`:
the first key (in iteration order) whose entry has the least timestamp,
together with that timestamp; `none` on an empty dict (where the Python
`min` builtin raises `ValueError`). -/
def oldestPair : List (String × CacheEntry) → Option (String × Int)
  | [] => none
  | (k, e) :: rest =>
    match oldestPair rest with
    | none => some (k, e.timestamp)
    | some (k', t') =>
      if e.timestamp ≤ t' then some (k, e.timestamp) else some (k', t')

/-- Source `AuthzCache.get` keyed form: lookup; on absence count a miss; on an
expired entry delete it and count a miss; otherwise count a hit and
return the entry unchanged. -/
def AuthzCache.getK (s : AuthzCache) (k : String) (now : Int) :
    Option CacheEntry × AuthzCache :=
  match lookupEntry s.cache k with
  | none => (none, { s with misses := s.misses + 1 })
  | some e =>
    if e.is_expired now then
      (none, { s with cache := removeKey s.cache k, misses := s.misses + 1 })
    else
      (some e, { s with hits := s.hits + 1 })

/-- Source expression `ttl or self._default_ttl`, following Python
falsiness: a missing ttl and a zero ttl both fall back to the default. -/
def effTTL (s : AuthzCache) (ttl : Option Int) : Int :=
  match ttl with
  | some t => if t = 0 then s.default_ttl else t
  | none => s.default_ttl

/-- Source `AuthzCache.set` keyed form.  At capacity: purge expired entries;
if still at capacity evict the oldest entry (`min` raises on an empty
dict, modelled as `Except.error`); then insert.  The expression
`reasons or []` follows Python falsiness (`reasons = None` becomes `[]`). -/
def AuthzCache.setK (s : AuthzCache) (k : String) (allowed : Bool)
    (reasons : Option (List String)) (ttl : Option Int) (now : Int) :
    Except String AuthzCache :=
  let entry : CacheEntry :=
    { allowed := allowed
      reasons := reasons.getD []
      timestamp := now
      ttl := effTTL s ttl }
  let c1 := if s.cache.length ≥ s.max_size then evict_expired s.cache now else s.cache
  if c1.length ≥ s.max_size then
    match oldestPair c1 with
    | none => Except.error "min() arg is an empty sequence"
    | some (oldest, _) =>
      Except.ok { s with cache := insertEntry (removeKey c1 oldest) k entry }
  else
    Except.ok { s with cache := insertEntry c1 k entry }

/-- Source `AuthzCache.invalidate_app`: the selective loop in the source is a
no-op (`pass`); the implementation then clears the whole dict, bumps
`invalidations` and returns the prior size, regardless of `app_id`. -/
def AuthzCache.invalidate_app (s : AuthzCache) (app_id : Int) : Nat × AuthzCache :=
  (s.cache.length, { s with cache := [], invalidations := s.invalidations + 1 })

/-- Source `AuthzCache.invalidate_all`: clear everything, bump `invalidations`,
return the prior size. -/
def AuthzCache.invalidate_all (s : AuthzCache) : Nat × AuthzCache :=
  (s.cache.length, { s with cache := [], invalidations := s.invalidations + 1 })

/-! Request-level wrappers: in the source, `get` and `set` take the request
fields and derive the key first. -/

structure AuthzRequest where
  app_id : Int
  principal_type : String
  principal_id : String
  action : String
  resource_type : String
  resource_id : String
  context : Option (List (String × JsonVal))

def AuthzRequest.key (r : AuthzRequest) : String :=
  make_key r.app_id r.principal_type r.principal_id r.action
    r.resource_type r.resource_id r.context

def AuthzCache.getReq (s : AuthzCache) (r : AuthzRequest) (now : Int) :
    Option CacheEntry × AuthzCache :=
  s.getK r.key now

def AuthzCache.setReq (s : AuthzCache) (r : AuthzRequest) (allowed : Bool)
    (reasons : Option (List String)) (ttl : Option Int) (now : Int) :
    Except String AuthzCache :=
  s.setK r.key allowed reasons ttl now

/-! Part: The cached client — `CachedAuthzClient.check`

The decision provider (`requests.post` + `raise_for_status` +
`response.json()`) is modelled by the outcome the transport produces:
either an exception before a response exists (timeout, connection error)
or an HTTP response with a status code and a parsed body. -/

structure ProviderResponse where
  status : Nat
  decision : Option String
  reasons : Option (List String)

inductive ProviderOutcome where
  | transportError (msg : String)
  | response (r : ProviderResponse)

/-- Source `response.raise_for_status()`: raises for 4xx/5xx status codes. -/
def raise_for_status (r : ProviderResponse) : Option String :=
  if 400 ≤ r.status ∧ r.status < 600 then some ("HTTP error " ++ toString r.status)
  else none

/-- Source `CachedAuthzClient.check`.  Returns the outcome (an exception is
`Except.error`) together with the cache state after the call; the cache
is shared mutable state, so it is threaded through even when the call
raises. -/
def check (r : AuthzRequest) (s : AuthzCache) (bypass_cache : Bool)
    (provider : ProviderOutcome) (now : Int) :
    Except String Bool × AuthzCache :=
  let afterGet := if bypass_cache then (none, s) else s.getReq r now
  match afterGet with
  | (some e, s1) => (Except.ok e.allowed, s1)
  | (none, s1) =>
    match provider with
    | .transportError msg => (Except.error msg, s1)
    | .response resp =>
      match raise_for_status resp with
      | some err => (Except.error err, s1)
      | none =>
        let allowed := resp.decision == some "allow"
        match s1.setReq r allowed (some (resp.reasons.getD [])) none now with
        | .ok s2 => (Except.ok allowed, s2)
        | .error msg => (Except.error msg, s1)

/-! Part: The SSE subscriber — `sse.py` -/

structure PolicyEvent where
  event_type : String
  app_id : Option Int
  timestamp : String
  data : Option JsonVal
deriving DecidableEq

/-- The structured payload `json.loads` yields for one `data` buffer,
seen through the `payload.get(...)` calls `_process_event` makes. -/
structure Payload where
  ptype : Option String
  app_id : Option Int
  timestamp : Option String
  pdata : Option JsonVal

/-- The empty payload `{}` (used when the joined data string is empty). -/
def Payload.empty : Payload := ⟨none, none, none, none⟩

/-- Event materialization inside `SSESubscriber._process_event`:
`event_type or payload.get("type", "unknown")` (note Python falsiness:
an empty explicit event type falls through), `payload.get("app_id")`,
`payload.get("timestamp", "")`, `payload.get("data")`. -/
def materializeEvent (etype : Option String) (p : Payload) : PolicyEvent :=
  { event_type :=
      match etype with
      | some t => if t = "" then p.ptype.getD "unknown" else t
      | none => p.ptype.getD "unknown"
    app_id := p.app_id
    timestamp := p.timestamp.getD ""
    data := p.pdata }

/-- Source `SSESubscriber._process_event`, parameterized by the structured
parser (`json.loads` composed with the dict reads; a
`json.JSONDecodeError` is `none`).  A parse failure is logged and
dropped — no event, no exception. -/
def process_event (parse : String → Option Payload)
    (etype : Option String) (data : String) : Option PolicyEvent :=
  if data = "" then some (materializeEvent etype Payload.empty)
  else
    match parse data with
    | none => none
    | some p => some (materializeEvent etype p)

/-! Python string primitives used by the line loop, modelled over the
underlying character lists so that they are kernel-computable:
`str.strip`, `str.lstrip`, `str.startswith(":")` and
`str.partition(":")`. -/

/-- Whitespace as stripped by Python `str.strip` (the frames in play use
spaces, tabs and line breaks). -/
def isSpace (c : Char) : Bool :=
  c = ' ' ∨ c = '\t' ∨ c = '\n' ∨ c = '\r'

/-- Python `line.strip()`. -/
def pyStrip (s : String) : String :=
  ⟨((s.data.dropWhile isSpace).reverse.dropWhile isSpace).reverse⟩

/-- Python `value.lstrip()`. -/
def pyLStrip (s : String) : String :=
  ⟨s.data.dropWhile isSpace⟩

/-- Python `line.startswith(":")`. -/
def startsWithColon (s : String) : Bool :=
  match s.data with
  | c :: _ => c = ':'
  | [] => false

/-- Python `line.partition(":")` restricted to the success case: the
text before the first colon and the text after it, or `none` when the
line has no colon (the `":" in line` test). -/
def splitFirstColon : List Char → Option (List Char × List Char)
  | [] => none
  | c :: rest =>
    if c = ':' then some ([], rest)
    else
      match splitFirstColon rest with
      | none => none
      | some (f, v) => some (c :: f, v)

def partitionColon (s : String) : Option (String × String) :=
  match splitFirstColon s.data with
  | none => none
  | some (f, v) => some (⟨f⟩, ⟨v⟩)

/-- The line loop of `SSESubscriber._connect_and_listen`, run to the end
of the stream with the subscriber kept running: returns the events
dispatched to the callback, in order.  `etype` and `dataLines` are the
pending event type and data buffer. -/
def processLines (parse : String → Option Payload) (etype : Option String)
    (dataLines : List String) : List String → List PolicyEvent
  | [] => []
  | line :: rest =>
    let l := pyStrip line
    if l = "" then
      match (if dataLines.isEmpty then none
             else process_event parse etype (String.intercalate "\n" dataLines)) with
      | some ev => ev :: processLines parse none [] rest
      | none => processLines parse none [] rest
    else if startsWithColon l then
      processLines parse etype dataLines rest
    else
      match partitionColon l with
      | none => processLines parse etype dataLines rest
      | some (f, v) =>
        let value := pyLStrip v
        if f = "event" then processLines parse (some value) dataLines rest
        else if f = "data" then processLines parse etype (dataLines ++ [value]) rest
        else processLines parse etype dataLines rest

/-! Part: Reconnect backoff — `SSESubscriber._run`

One iteration of the `while self._running` loop either raises from
`_connect_and_listen` (connection failure, or a stream error after the
connection was established — the `except` clause cannot tell these
apart) or returns from it normally (the stream ended cleanly, i.e. the
server closed it or `stop()` was requested; here the subscriber is kept
running throughout, matching the premise of the claims). -/

inductive SessionOutcome where
  | connectFailed
  | streamedThenError
  | streamedThenClean
deriving DecidableEq

/-- The sequence of backoff waits `time.sleep(self._current_delay)`
performed by `_run` over a given sequence of session outcomes, starting
from current delay `cur`.  On an exception the loop sleeps `cur` and
then sets `cur := min (cur * 2) max_d`; on a normal return it resets
`cur` to the base delay and retries immediately. -/
def runTrace (base max_d : Int) (cur : Int) : List SessionOutcome → List Int
  | [] => []
  | .streamedThenClean :: rest => runTrace base max_d base rest
  | .connectFailed :: rest => cur :: runTrace base max_d (min (cur * 2) max_d) rest
  | .streamedThenError :: rest => cur :: runTrace base max_d (min (cur * 2) max_d) rest

/-- Source `self._current_delay` after `_run` has processed the given session
outcomes, starting from current delay `cur`. -/
def runDelay (base max_d : Int) (cur : Int) : List SessionOutcome → Int
  | [] => cur
  | .streamedThenClean :: rest => runDelay base max_d base rest
  | .connectFailed :: rest => runDelay base max_d (min (cur * 2) max_d) rest
  | .streamedThenError :: rest => runDelay base max_d (min (cur * 2) max_d) rest

/-! Part: The invalidation dispatcher — `create_cache_invalidator` -/

inductive CacheOp where
  | invApp (app_id : Int)
  | invAll
deriving DecidableEq

/-- The cache operation the handler returned by
`create_cache_invalidator` performs on one event (`none` = no cache
call).  `if event.app_id:` is Python truthiness: it takes the
`invalidate_app` branch exactly when `app_id` is present and nonzero. -/
def invalidatorOp (e : PolicyEvent) : Option CacheOp :=
  if e.event_type = "policy_updated" ∨ e.event_type = "entity_updated" then
    match e.app_id with
    | some a => if a ≠ 0 then some (CacheOp.invApp a) else some CacheOp.invAll
    | none => some CacheOp.invAll
  else none

/-- Running the handler against a store: total — no event type crashes it. -/
def runInvalidator (s : AuthzCache) (e : PolicyEvent) : AuthzCache :=
  match invalidatorOp e with
  | some (CacheOp.invApp a) => (s.invalidate_app a).2
  | some CacheOp.invAll => s.invalidate_all.2
  | none => s

/-! Part: Concrete fixtures used to instantiate the theorems. -/

/-- An empty store with default configuration. -/
def emptyStore : AuthzCache :=
  { cache := []
    default_ttl := 60
    max_size := 10000
    hits := 0
    misses := 0
    invalidations := 0 }

/-- A request under application 1. -/
def reqA : AuthzRequest :=
  ⟨1, "User", "alice", "view", "Document", "doc1", none⟩

/-- A request under application 2. -/
def reqB : AuthzRequest :=
  ⟨2, "User", "bob", "view", "Document", "doc2", none⟩

/-- A store populated with one entry per application (both inserted at
time 0 with ttl 60). -/
def storeAB : AuthzCache :=
  { cache := [(reqA.key, ⟨true, [], 0, 60⟩), (reqB.key, ⟨true, [], 0, 60⟩)]
    default_ttl := 60
    max_size := 10000
    hits := 0
    misses := 0
    invalidations := 0 }

/-- A two-entry store at capacity (`max_size = 2`), entries unexpired at
time 10; the oldest entry is the one for `reqA`. -/
def storeFull : AuthzCache :=
  { cache := [(reqA.key, ⟨true, [], 0, 60⟩), (reqB.key, ⟨false, [], 5, 60⟩)]
    default_ttl := 60
    max_size := 2
    hits := 0
    misses := 0
    invalidations := 0 }

/-- A sample structured parser for instantiating the stream theorems:
accepts exactly the payload text `"good"`. -/
def tparse : String → Option Payload := fun s =>
  if s = "good" then some ⟨some "policy_updated", some 1, some "t", none⟩
  else none

/-- The payload `tparse` yields for `"good"`. -/
def goodPayload : Payload := ⟨some "policy_updated", some 1, some "t", none⟩

/-! Part: Helper lemmas about the association-list model of the dict. -/

theorem lookup_insertEntry_self (c : List (String × CacheEntry)) (k : String)
    (e : CacheEntry) : lookupEntry (insertEntry c k e) k = some e := by
  induction c with
  | nil => simp [insertEntry, lookupEntry]
  | cons p rest ih =>
    obtain ⟨a, b⟩ := p
    by_cases h : a = k
    · subst h
      simp [insertEntry, lookupEntry]
    · simp [insertEntry, lookupEntry, h, ih]

theorem lookup_insertEntry_ne (c : List (String × CacheEntry)) (k j : String)
    (e : CacheEntry) (h : j ≠ k) :
    lookupEntry (insertEntry c k e) j = lookupEntry c j := by
  have hkj : ¬ k = j := fun hh => h hh.symm
  induction c with
  | nil => simp [insertEntry, lookupEntry, hkj]
  | cons p rest ih =>
    obtain ⟨a, b⟩ := p
    by_cases hak : a = k
    · subst hak
      simp [insertEntry, lookupEntry, hkj]
    · simp [insertEntry, lookupEntry, hak, ih]

theorem length_insertEntry_le (c : List (String × CacheEntry)) (k : String)
    (e : CacheEntry) : (insertEntry c k e).length ≤ c.length + 1 := by
  induction c with
  | nil => simp [insertEntry]
  | cons p rest ih =>
    obtain ⟨a, b⟩ := p
    simp only [insertEntry]
    split
    · simp
    · simp only [List.length_cons]
      omega

theorem length_insertEntry_of_mem (c : List (String × CacheEntry)) (k : String)
    (e : CacheEntry) (h : (lookupEntry c k).isSome) :
    (insertEntry c k e).length = c.length := by
  induction c with
  | nil => simp [lookupEntry] at h
  | cons p rest ih =>
    obtain ⟨a, b⟩ := p
    by_cases hak : a = k
    · simp [insertEntry, hak]
    · simp only [lookupEntry, if_neg hak] at h
      simp only [insertEntry, if_neg hak, List.length_cons, ih h]

theorem lookup_removeKey_ne (c : List (String × CacheEntry)) (k j : String)
    (h : j ≠ k) : lookupEntry (removeKey c k) j = lookupEntry c j := by
  induction c with
  | nil => simp [removeKey]
  | cons p rest ih =>
    obtain ⟨a, b⟩ := p
    by_cases hak : a = k
    · subst hak
      simp [removeKey, lookupEntry, Ne.symm h]
    · simp [removeKey, lookupEntry, hak, ih]

theorem lookup_eq_none (c : List (String × CacheEntry)) (k : String) :
    lookupEntry c k = none ↔ k ∉ c.map Prod.fst := by
  induction c with
  | nil => simp [lookupEntry]
  | cons p rest ih =>
    obtain ⟨a, b⟩ := p
    by_cases hak : a = k
    · subst hak
      simp [lookupEntry]
    · simp only [lookupEntry, if_neg hak, List.map_cons, List.mem_cons, ih]
      constructor
      · intro hn hor
        rcases hor with h1 | h2
        · exact hak h1.symm
        · exact hn h2
      · intro hn hm
        exact hn (Or.inr hm)

theorem lookup_removeKey_self (c : List (String × CacheEntry)) (k : String)
    (hnd : (c.map Prod.fst).Nodup) : lookupEntry (removeKey c k) k = none := by
  induction c with
  | nil => simp [removeKey, lookupEntry]
  | cons p rest ih =>
    obtain ⟨a, b⟩ := p
    simp only [List.map_cons, List.nodup_cons] at hnd
    by_cases hak : a = k
    · subst hak
      simp only [removeKey, if_pos rfl]
      exact (lookup_eq_none rest a).mpr hnd.1
    · simp [removeKey, lookupEntry, hak, ih hnd.2]

theorem length_removeKey_of_mem (c : List (String × CacheEntry)) (k : String)
    (h : (lookupEntry c k).isSome) : (removeKey c k).length + 1 = c.length := by
  induction c with
  | nil => simp [lookupEntry] at h
  | cons p rest ih =>
    obtain ⟨a, b⟩ := p
    by_cases hak : a = k
    · simp [removeKey, hak]
    · simp only [lookupEntry, if_neg hak] at h
      simp only [removeKey, if_neg hak, List.length_cons]
      have := ih h
      omega

theorem length_removeKey_le (c : List (String × CacheEntry)) (k : String) :
    (removeKey c k).length ≤ c.length := by
  induction c with
  | nil => simp [removeKey]
  | cons p rest ih =>
    obtain ⟨a, b⟩ := p
    simp only [removeKey]
    split
    · simp
    · simp only [List.length_cons]
      omega

theorem mem_keys_lookup (c : List (String × CacheEntry)) (k : String)
    (h : k ∈ c.map Prod.fst) : (lookupEntry c k).isSome := by
  cases hcase : lookupEntry c k with
  | none => exact absurd h ((lookup_eq_none c k).mp hcase)
  | some e => simp

theorem oldestPair_cons_none (a : String) (b : CacheEntry)
    (rest : List (String × CacheEntry)) (hr : oldestPair rest = none) :
    oldestPair ((a, b) :: rest) = some (a, b.timestamp) := by
  unfold oldestPair
  rw [hr]

theorem oldestPair_cons_some (a : String) (b : CacheEntry)
    (rest : List (String × CacheEntry)) (k1 : String) (t1 : Int)
    (hr : oldestPair rest = some (k1, t1)) :
    oldestPair ((a, b) :: rest) =
      if b.timestamp ≤ t1 then some (a, b.timestamp) else some (k1, t1) := by
  unfold oldestPair
  rw [hr]

theorem oldestPair_isSome (c : List (String × CacheEntry)) (h : c ≠ []) :
    ∃ kt, oldestPair c = some kt := by
  cases c with
  | nil => exact absurd rfl h
  | cons p rest =>
    obtain ⟨a, b⟩ := p
    cases hr : oldestPair rest with
    | none => exact ⟨(a, b.timestamp), oldestPair_cons_none a b rest hr⟩
    | some kt =>
      obtain ⟨k1, t1⟩ := kt
      by_cases hle : b.timestamp ≤ t1
      · exact ⟨(a, b.timestamp), by rw [oldestPair_cons_some a b rest k1 t1 hr, if_pos hle]⟩
      · exact ⟨(k1, t1), by rw [oldestPair_cons_some a b rest k1 t1 hr, if_neg hle]⟩

theorem oldestPair_mem (c : List (String × CacheEntry)) (k : String) (t : Int)
    (h : oldestPair c = some (k, t)) : k ∈ c.map Prod.fst := by
  induction c generalizing k t with
  | nil => simp [oldestPair] at h
  | cons p rest ih =>
    obtain ⟨a, b⟩ := p
    cases hr : oldestPair rest with
    | none =>
      rw [oldestPair_cons_none a b rest hr] at h
      simp only [Option.some_inj, Prod.mk.injEq] at h
      simp [h.1]
    | some kt =>
      obtain ⟨k1, t1⟩ := kt
      rw [oldestPair_cons_some a b rest k1 t1 hr] at h
      by_cases hle : b.timestamp ≤ t1
      · rw [if_pos hle] at h
        simp only [Option.some_inj, Prod.mk.injEq] at h
        simp [h.1]
      · rw [if_neg hle] at h
        simp only [Option.some_inj, Prod.mk.injEq] at h
        have := ih k1 t1 hr
        rw [h.1] at this
        simp only [List.map_cons, List.mem_cons]
        exact Or.inr this

theorem oldestPair_min (c : List (String × CacheEntry)) (k : String) (t : Int)
    (h : oldestPair c = some (k, t)) : ∀ p ∈ c, t ≤ p.2.timestamp := by
  induction c generalizing k t with
  | nil => simp [oldestPair] at h
  | cons q rest ih =>
    obtain ⟨a, b⟩ := q
    cases hr : oldestPair rest with
    | none =>
      rw [oldestPair_cons_none a b rest hr] at h
      simp only [Option.some_inj, Prod.mk.injEq] at h
      have hrest : rest = [] := by
        cases rest with
        | nil => rfl
        | cons x xs =>
          obtain ⟨kt, hkt⟩ := oldestPair_isSome (x :: xs) (by simp)
          rw [hkt] at hr
          cases hr
      subst hrest
      intro p hp
      simp only [List.mem_singleton] at hp
      subst hp
      show t ≤ b.timestamp
      have := h.2
      omega
    | some kt =>
      obtain ⟨k1, t1⟩ := kt
      rw [oldestPair_cons_some a b rest k1 t1 hr] at h
      have hmin := ih k1 t1 hr
      intro p hp
      rcases List.mem_cons.mp hp with hp | hp
      · subst hp
        show t ≤ b.timestamp
        by_cases hle : b.timestamp ≤ t1
        · rw [if_pos hle] at h
          simp only [Option.some_inj, Prod.mk.injEq] at h
          have := h.2
          omega
        · rw [if_neg hle] at h
          simp only [Option.some_inj, Prod.mk.injEq] at h
          have ht := h.2
          omega
      · have hle2 := hmin p hp
        by_cases hle : b.timestamp ≤ t1
        · rw [if_pos hle] at h
          simp only [Option.some_inj, Prod.mk.injEq] at h
          have := h.2
          omega
        · rw [if_neg hle] at h
          simp only [Option.some_inj, Prod.mk.injEq] at h
          have ht := h.2
          omega

theorem evict_expired_eq_self (c : List (String × CacheEntry)) (now : Int)
    (h : ∀ p ∈ c, p.2.is_expired now = false) : evict_expired c now = c := by
  unfold evict_expired
  apply List.filter_eq_self.mpr
  intro p hp
  simp [h p hp]


/-! Part: Store-level helper lemmas. -/

theorem setK_lookup (s : AuthzCache) (k : String) (a : Bool)
    (rs : Option (List String)) (ttl : Option Int) (now : Int) (s' : AuthzCache)
    (h : s.setK k a rs ttl now = Except.ok s') :
    lookupEntry s'.cache k = some ⟨a, rs.getD [], now, effTTL s ttl⟩
    ∧ s'.default_ttl = s.default_ttl ∧ s'.max_size = s.max_size
    ∧ s'.hits = s.hits ∧ s'.misses = s.misses
    ∧ s'.invalidations = s.invalidations := by
  simp only [AuthzCache.setK] at h
  set c1 := if s.cache.length ≥ s.max_size then evict_expired s.cache now
    else s.cache with hc1
  by_cases h2 : c1.length ≥ s.max_size
  · rw [if_pos h2] at h
    cases hop : oldestPair c1 with
    | none =>
      rw [hop] at h
      exact Except.noConfusion h
    | some kt =>
      obtain ⟨ok0, t0⟩ := kt
      rw [hop] at h
      simp only [Except.ok.injEq] at h
      subst h
      exact ⟨lookup_insertEntry_self _ _ _, rfl, rfl, rfl, rfl, rfl⟩
  · rw [if_neg h2] at h
    simp only [Except.ok.injEq] at h
    subst h
    exact ⟨lookup_insertEntry_self _ _ _, rfl, rfl, rfl, rfl, rfl⟩

theorem setK_ok (s : AuthzCache) (k : String) (a : Bool)
    (rs : Option (List String)) (ttl : Option Int) (now : Int)
    (hmax : 1 ≤ s.max_size) (hlen : s.cache.length ≤ s.max_size) :
    ∃ s', s.setK k a rs ttl now = Except.ok s'
      ∧ s'.cache.length ≤ s.max_size := by
  simp only [AuthzCache.setK]
  have hc1 : (if s.cache.length ≥ s.max_size then evict_expired s.cache now
      else s.cache).length ≤ s.max_size := by
    split
    · exact le_trans (List.length_filter_le _ _) hlen
    · exact hlen
  set c1 := if s.cache.length ≥ s.max_size then evict_expired s.cache now
    else s.cache with hc1def
  by_cases h2 : c1.length ≥ s.max_size
  · rw [if_pos h2]
    have hne : c1 ≠ [] := by
      intro hnil
      rw [hnil] at h2
      simp only [List.length_nil] at h2
      omega
    obtain ⟨⟨ok0, t0⟩, hop⟩ := oldestPair_isSome c1 hne
    rw [hop]
    refine ⟨_, rfl, ?_⟩
    have hmem : (lookupEntry c1 ok0).isSome :=
      mem_keys_lookup c1 ok0 (oldestPair_mem c1 ok0 t0 hop)
    have hrem := length_removeKey_of_mem c1 ok0 hmem
    have hins := length_insertEntry_le (removeKey c1 ok0) k
      ⟨a, rs.getD [], now, effTTL s ttl⟩
    show (insertEntry (removeKey c1 ok0) k _).length ≤ s.max_size
    omega
  · rw [if_neg h2]
    refine ⟨_, rfl, ?_⟩
    have hins := length_insertEntry_le c1 k ⟨a, rs.getD [], now, effTTL s ttl⟩
    show (insertEntry c1 k _).length ≤ s.max_size
    omega

theorem getK_eq_none (s : AuthzCache) (k : String) (now : Int)
    (h : lookupEntry s.cache k = none) :
    s.getK k now = (none, { s with misses := s.misses + 1 }) := by
  unfold AuthzCache.getK
  rw [h]

theorem getK_eq_some (s : AuthzCache) (k : String) (now : Int) (e : CacheEntry)
    (h : lookupEntry s.cache k = some e) :
    s.getK k now =
      if e.is_expired now then
        (none, { s with cache := removeKey s.cache k, misses := s.misses + 1 })
      else (some e, { s with hits := s.hits + 1 }) := by
  unfold AuthzCache.getK
  rw [h]

theorem getK_miss_state (s : AuthzCache) (k : String) (now : Int)
    (s1 : AuthzCache) (hnd : (s.cache.map Prod.fst).Nodup)
    (h : s.getK k now = (none, s1)) :
    lookupEntry s1.cache k = none ∧ s1.cache.length ≤ s.cache.length
    ∧ s1.max_size = s.max_size ∧ s1.default_ttl = s.default_ttl := by
  cases hl : lookupEntry s.cache k with
  | none =>
    rw [getK_eq_none s k now hl] at h
    simp only [Prod.mk.injEq] at h
    rw [← h.2]
    exact ⟨hl, le_refl _, rfl, rfl⟩
  | some e =>
    rw [getK_eq_some s k now e hl] at h
    by_cases hexp : e.is_expired now = true
    · rw [if_pos hexp] at h
      simp only [Prod.mk.injEq] at h
      rw [← h.2]
      exact ⟨lookup_removeKey_self s.cache k hnd, length_removeKey_le _ _, rfl, rfl⟩
    · rw [if_neg hexp] at h
      simp only [Prod.mk.injEq] at h
      exact absurd h.1 (by simp)

/-! Part: Backoff helper lemmas. -/

theorem runDelay_append_clean (base m : Int) (pre : List SessionOutcome) :
    ∀ cur, runDelay base m cur
      (pre ++ [SessionOutcome.streamedThenClean]) = base := by
  induction pre with
  | nil =>
    intro cur
    simp [runDelay]
  | cons o rest ih =>
    intro cur
    cases o <;> simp [runDelay, ih]

theorem min_double_pow (a m : Int) (i : Nat) (ha : 0 < a) (hm : 0 ≤ m) :
    min (min (a * 2) m * 2 ^ i) m = min (a * 2 ^ (i + 1)) m := by
  have h1 : (1:Int) ≤ 2 ^ i := one_le_pow₀ (by norm_num)
  rcases le_or_lt (a * 2) m with h | h
  · rw [min_eq_left h]
    have e1 : a * 2 * 2 ^ i = a * 2 ^ (i + 1) := by ring
    rw [e1]
  · rw [min_eq_right h.le]
    rw [min_eq_right (le_mul_of_one_le_right hm h1)]
    have e1 : a * 2 ^ (i + 1) = a * 2 * 2 ^ i := by ring
    rw [e1, min_eq_right (le_trans h.le (le_mul_of_one_le_right (by positivity) h1))]

theorem runTrace_replicate (base m : Int) (hm : 0 ≤ m) :
    ∀ (k : Nat) (a : Int), 0 < a → a ≤ m →
      runTrace base m a (List.replicate k SessionOutcome.connectFailed) =
        (List.range k).map (fun i => min (a * 2 ^ i) m) := by
  intro k
  induction k with
  | zero =>
    intro a ha ham
    simp [runTrace]
  | succ n ih =>
    intro a ha ham
    rw [List.replicate_succ]
    show a :: runTrace base m (min (a * 2) m)
        (List.replicate n SessionOutcome.connectFailed) =
      (List.range (n + 1)).map (fun i => min (a * 2 ^ i) m)
    rw [List.range_succ_eq_map, List.map_cons, List.map_map]
    have hhead : min (a * 2 ^ 0) m = a := by
      rw [pow_zero, mul_one, min_eq_left ham]
    rw [hhead]
    congr 1
    rw [ih (min (a * 2) m) (lt_min (by omega) (lt_of_lt_of_le ha ham))
      (min_le_right _ _)]
    apply List.map_congr_left
    intro i _
    show min (min (a * 2) m * 2 ^ i) m = min (a * 2 ^ (Nat.succ i)) m
    exact min_double_pow a m i ha hm

theorem runTrace_chain (base m : Int) :
    ∀ (k : Nat) (a : Int), 0 < a → a ≤ m →
      List.Chain' (· ≤ ·)
        (runTrace base m a (List.replicate k SessionOutcome.connectFailed)) := by
  intro k
  induction k with
  | zero =>
    intro a _ _
    simp [runTrace]
  | succ n ih =>
    intro a ha ham
    rw [List.replicate_succ]
    show List.Chain' (· ≤ ·) (a :: runTrace base m (min (a * 2) m)
      (List.replicate n SessionOutcome.connectFailed))
    have ha2 : 0 < min (a * 2) m := lt_min (by omega) (lt_of_lt_of_le ha ham)
    have ham2 : min (a * 2) m ≤ m := min_le_right _ _
    have htail := ih (min (a * 2) m) ha2 ham2
    cases n with
    | zero => simp [runTrace]
    | succ n2 =>
      rw [List.replicate_succ] at htail ⊢
      show List.Chain' (· ≤ ·) (a :: min (a * 2) m ::
        runTrace base m (min (min (a * 2) m * 2) m)
          (List.replicate n2 SessionOutcome.connectFailed))
      refine List.chain'_cons.mpr ⟨le_min (by omega) ham, htail⟩

theorem runTrace_bound (base m : Int) :
    ∀ (k : Nat) (a : Int), a ≤ m →
      ∀ w ∈ runTrace base m a (List.replicate k SessionOutcome.connectFailed),
        w ≤ m := by
  intro k
  induction k with
  | zero =>
    intro a _ w hw
    simp [runTrace] at hw
  | succ n ih =>
    intro a ham w hw
    rw [List.replicate_succ] at hw
    rcases List.mem_cons.mp hw with hw | hw
    · omega
    · exact ih (min (a * 2) m) (min_le_right _ _) w hw

/-! Part: Sorting helper lemma for key derivation. -/

theorem insertionSort_keyLE_perm_eq (l1 l2 : List (String × JsonVal))
    (hp : l1.Perm l2) (hnd : (l1.map Prod.fst).Nodup) :
    List.insertionSort keyLE l1 = List.insertionSort keyLE l2 := by
  haveI : IsTotal (String × JsonVal) keyLE := ⟨fun a b => le_total a.1.data b.1.data⟩
  haveI : IsTrans (String × JsonVal) keyLE := ⟨fun a b c h1 h2 => le_trans h1 h2⟩
  haveI : IsAntisymm (String × JsonVal) (fun a b => a.1.data < b.1.data) :=
    ⟨fun a b h1 h2 => absurd h2 (lt_asymm h1)⟩
  have hperm : (List.insertionSort keyLE l1).Perm (List.insertionSort keyLE l2) :=
    (List.perm_insertionSort keyLE l1).trans
      (hp.trans (List.perm_insertionSort keyLE l2).symm)
  have hs1 : List.Sorted keyLE (List.insertionSort keyLE l1) :=
    List.sorted_insertionSort keyLE l1
  have hs2 : List.Sorted keyLE (List.insertionSort keyLE l2) :=
    List.sorted_insertionSort keyLE l2
  have hkey1 : List.Pairwise (fun a b : String × JsonVal => a.1 ≠ b.1) l1 :=
    List.pairwise_map.mp hnd
  have hkey2 : List.Pairwise (fun a b : String × JsonVal => a.1 ≠ b.1) l2 :=
    (hp.pairwise_iff (fun hab => Ne.symm hab)).mp hkey1
  have hnd1 : List.Pairwise (fun a b : String × JsonVal => a.1 ≠ b.1)
      (List.insertionSort keyLE l1) :=
    ((List.perm_insertionSort keyLE l1).pairwise_iff (fun hab => Ne.symm hab)).mpr hkey1
  have hnd2 : List.Pairwise (fun a b : String × JsonVal => a.1 ≠ b.1)
      (List.insertionSort keyLE l2) :=
    ((List.perm_insertionSort keyLE l2).pairwise_iff (fun hab => Ne.symm hab)).mpr hkey2
  have hstrict1 : List.Sorted (fun a b : String × JsonVal => a.1.data < b.1.data)
      (List.insertionSort keyLE l1) :=
    (List.Pairwise.and hs1 hnd1).imp
      (fun h => lt_of_le_of_ne h.1 (fun hd => h.2 (String.ext hd)))
  have hstrict2 : List.Sorted (fun a b : String × JsonVal => a.1.data < b.1.data)
      (List.insertionSort keyLE l2) :=
    (List.Pairwise.and hs2 hnd2).imp
      (fun h => lt_of_le_of_ne h.1 (fun hd => h.2 (String.ext hd)))
  exact List.eq_of_perm_of_sorted hperm hstrict1 hstrict2

/-! Part: Claim theorems. -/

/-- C1: the claim says `invalidate_app(a)` removes only the entries of
application `a`, leaves entries of another application `b` untouched and
still retrievable as hits, and returns the number removed.  The code
clears the whole store: starting from a store holding one entry under
app 1 and one under app 2 (the app-2 entry being a hit beforehand),
`invalidate_app 1` reports 2 removed entries and the subsequent get for
the app-2 request is a miss. -/
theorem C1_invalidate_app_clears_other_app :
    (storeAB.getReq reqB 10).1 = some ⟨true, [], 0, 60⟩
    ∧ (storeAB.invalidate_app 1).1 = 2
    ∧ ((storeAB.invalidate_app 1).2.getReq reqB 10).1 = none
    ∧ ((storeAB.invalidate_app 1).2.getReq reqA 10).1 = none := by
  refine ⟨?_, rfl, rfl, rfl⟩
  decide

/-- C2 (counterexample): the claim says a connection that reaches
`Streaming` and then ends — with or without an error — resets
`current_delay` to the base delay before the next retry.  With base 5 and
max 60, after one failed connection (delay now 10) a session that
streams and then ends with an error makes the loop wait 10 (not the base
5) and leaves the pending delay at 20 (not 5). -/
theorem C2_counterexample :
    runTrace 5 60 5 [SessionOutcome.connectFailed,
      SessionOutcome.streamedThenError] = [5, 10]
    ∧ runDelay 5 60 5 [SessionOutcome.connectFailed,
      SessionOutcome.streamedThenError] = 20
    ∧ (10 : Int) ≠ 5 ∧ (20 : Int) ≠ 5 := by
  decide

/-- C2 (amended): `current_delay` resets to the base delay exactly when
the established session ends cleanly (`_connect_and_listen` returns):
after any history ending in a clean session the pending delay is the
base.  A session that ends with a stream error instead takes the
exception path: the loop waits the current delay and then doubles it
(clamped), without resetting. -/
theorem C2_reset_on_clean_session (base m cur : Int) (pre : List SessionOutcome) :
    runDelay base m cur (pre ++ [SessionOutcome.streamedThenClean]) = base
    ∧ (∀ rest, runTrace base m cur (SessionOutcome.streamedThenError :: rest) =
        cur :: runTrace base m (min (cur * 2) m) rest) :=
  ⟨runDelay_append_clean base m pre cur, fun _ => rfl⟩

/-- C3 (counterexample): the claim says the handler calls
`invalidate_app(event.app_id)` whenever `app_id` is present, including
`app_id = 0`.  For a `policy_updated` event with `app_id = 0` the
Python truthiness test `if event.app_id:` is false, so the handler calls
`invalidate_all()` instead of `invalidate_app(0)`. -/
theorem C3_counterexample :
    invalidatorOp ⟨"policy_updated", some 0, "", none⟩ = some CacheOp.invAll
    ∧ some CacheOp.invAll ≠ some (CacheOp.invApp 0) := by
  decide

/-- C3 (amended): for `policy_updated` / `entity_updated` events the
handler calls `invalidate_app(app_id)` when `app_id` is present and
nonzero, and `invalidate_all()` when `app_id` is absent or zero; any
other event type performs no cache operation and does not crash (the
handler is total and leaves the store unchanged). -/
theorem C3_dispatcher (e : PolicyEvent) (s : AuthzCache) :
    ((e.event_type = "policy_updated" ∨ e.event_type = "entity_updated") →
      (∀ a : Int, e.app_id = some a → a ≠ 0 →
        invalidatorOp e = some (CacheOp.invApp a))
      ∧ ((e.app_id = none ∨ e.app_id = some 0) →
        invalidatorOp e = some CacheOp.invAll))
    ∧ (¬(e.event_type = "policy_updated" ∨ e.event_type = "entity_updated") →
        invalidatorOp e = none ∧ runInvalidator s e = s) := by
  constructor
  · intro htype
    constructor
    · intro a ha hnz
      unfold invalidatorOp
      rw [if_pos htype, ha]
      simp [hnz]
    · intro hid
      unfold invalidatorOp
      rw [if_pos htype]
      rcases hid with hid | hid <;> rw [hid] <;> simp
  · intro htype
    have hop : invalidatorOp e = none := by
      unfold invalidatorOp
      rw [if_neg htype]
    refine ⟨hop, ?_⟩
    unfold runInvalidator
    rw [hop]

/-- C3 (witness): the amended dispatcher behavior at concrete events. -/
theorem C3_witness :
    invalidatorOp ⟨"policy_updated", some 7, "", none⟩ = some (CacheOp.invApp 7)
    ∧ invalidatorOp ⟨"entity_updated", none, "", none⟩ = some CacheOp.invAll
    ∧ invalidatorOp ⟨"heartbeat", some 7, "", none⟩ = none := by
  refine ⟨?_, ?_, ?_⟩
  · exact ((C3_dispatcher ⟨"policy_updated", some 7, "", none⟩ storeAB).1
      (Or.inl rfl)).1 7 rfl (by decide)
  · exact ((C3_dispatcher ⟨"entity_updated", none, "", none⟩ storeAB).1
      (Or.inr rfl)).2 (Or.inl rfl)
  · exact ((C3_dispatcher ⟨"heartbeat", some 7, "", none⟩ storeAB).2
      (by decide)).1

/-- C4 (counterexample): the claim says that on each failure the
subscriber sets `current_delay := min(current_delay * 2, max_delay)`
before performing the wait, so the wait after the k-th consecutive
failure is `min(base * 2 ^ k, max_delay)`.  With base 5 and max 60 the
code waits 5 after the first failure, not `min(5 * 2 ^ 1, 60) = 10`:
the doubling happens after the wait, not before. -/
theorem C4_counterexample :
    runTrace 5 60 5 [SessionOutcome.connectFailed] = [5]
    ∧ (5 : Int) ≠ min (5 * 2 ^ 1) 60 := by
  decide

/-- C4 (amended): on each consecutive failure the subscriber waits
`current_delay` and then sets `current_delay := min(current_delay * 2,
max_delay)`; starting from a fresh base delay with `0 < base ≤
max_delay`, the wait after the k-th consecutive failure (k counted from
1) is `min(base * 2 ^ (k - 1), max_delay)`, and the observed waits are
non-decreasing and never exceed `max_delay`. -/
theorem C4_backoff (base m : Int) (k : Nat) (hb : 0 < base) (hbm : base ≤ m) :
    runTrace base m base (List.replicate k SessionOutcome.connectFailed) =
      (List.range k).map (fun i => min (base * 2 ^ i) m)
    ∧ List.Chain' (· ≤ ·)
        (runTrace base m base (List.replicate k SessionOutcome.connectFailed))
    ∧ (∀ w ∈ runTrace base m base (List.replicate k SessionOutcome.connectFailed),
        w ≤ m) :=
  ⟨runTrace_replicate base m (le_trans hb.le hbm) k base hb hbm,
   runTrace_chain base m k base hb hbm,
   runTrace_bound base m k base hbm⟩

/-- C4 (witness): base 5, max 60, three consecutive failures give waits
5, 10, 20. -/
theorem C4_witness :
    runTrace 5 60 5 (List.replicate 3 SessionOutcome.connectFailed) =
      [5, 10, 20] := by
  have h := (C4_backoff 5 60 3 (by norm_num) (by norm_num)).1
  rw [h]
  decide

/-- C5: after every (successful) `set` the store holds at most
`max_size` entries (for a store within its bound, `max_size ≥ 1`); when
`set` finds the store at capacity it purges expired entries first, and
if still at capacity it evicts exactly the entry returned by the
oldest-timestamp minimum — a key whose timestamp is least among all
current entries — before inserting. -/
theorem C5_set_respects_capacity (s : AuthzCache) (k : String) (a : Bool)
    (rs : Option (List String)) (ttl : Option Int) (now : Int)
    (hmax : 1 ≤ s.max_size) (hlen : s.cache.length ≤ s.max_size) :
    ∃ s', s.setK k a rs ttl now = Except.ok s'
      ∧ s'.cache.length ≤ s.max_size
      ∧ (s.cache.length = s.max_size →
          (∀ p ∈ s.cache, p.2.is_expired now = false) →
          ∃ ok0 t0, oldestPair s.cache = some (ok0, t0)
            ∧ (∀ p ∈ s.cache, t0 ≤ p.2.timestamp)
            ∧ s'.cache = insertEntry (removeKey s.cache ok0) k
                ⟨a, rs.getD [], now, effTTL s ttl⟩) := by
  simp only [AuthzCache.setK]
  set c1 := if s.cache.length ≥ s.max_size then evict_expired s.cache now
    else s.cache with hc1def
  have hc1 : c1.length ≤ s.max_size := by
    rw [hc1def]
    split
    · exact le_trans (List.length_filter_le _ _) hlen
    · exact hlen
  by_cases h2 : c1.length ≥ s.max_size
  · rw [if_pos h2]
    have hne : c1 ≠ [] := by
      intro hnil
      rw [hnil] at h2
      simp only [List.length_nil] at h2
      omega
    obtain ⟨⟨ok0, t0⟩, hop⟩ := oldestPair_isSome c1 hne
    rw [hop]
    refine ⟨_, rfl, ?_, ?_⟩
    · have hmem : (lookupEntry c1 ok0).isSome :=
        mem_keys_lookup c1 ok0 (oldestPair_mem c1 ok0 t0 hop)
      have hrem := length_removeKey_of_mem c1 ok0 hmem
      have hins := length_insertEntry_le (removeKey c1 ok0) k
        ⟨a, rs.getD [], now, effTTL s ttl⟩
      show (insertEntry (removeKey c1 ok0) k _).length ≤ s.max_size
      omega
    · intro _ hfresh
      have hceq : c1 = s.cache := by
        rw [hc1def]
        split
        · exact evict_expired_eq_self s.cache now hfresh
        · rfl
      refine ⟨ok0, t0, ?_, ?_, ?_⟩
      · rw [← hceq]
        exact hop
      · intro p hp
        exact oldestPair_min c1 ok0 t0 hop p (by rw [hceq]; exact hp)
      · show insertEntry (removeKey c1 ok0) k _ =
          insertEntry (removeKey s.cache ok0) k _
        rw [hceq]
  · rw [if_neg h2]
    refine ⟨_, rfl, ?_, ?_⟩
    · have hins := length_insertEntry_le c1 k ⟨a, rs.getD [], now, effTTL s ttl⟩
      show (insertEntry c1 k _).length ≤ s.max_size
      omega
    · intro hfull hfresh
      have hceq : c1 = s.cache := by
        rw [hc1def]
        split
        · exact evict_expired_eq_self s.cache now hfresh
        · rfl
      rw [hceq] at h2
      exact absurd hfull (by omega)

/-- C5 (witness): a two-entry store at capacity 2, inserting a third
key: the set succeeds, stays within bound, and evicts the oldest
entry. -/
theorem C5_witness :
    ∃ s', storeFull.setK "k3" true none none 10 = Except.ok s'
      ∧ s'.cache.length ≤ storeFull.max_size
      ∧ (storeFull.cache.length = storeFull.max_size →
          (∀ p ∈ storeFull.cache, p.2.is_expired 10 = false) →
          ∃ ok0 t0, oldestPair storeFull.cache = some (ok0, t0)
            ∧ (∀ p ∈ storeFull.cache, t0 ≤ p.2.timestamp)
            ∧ s'.cache = insertEntry (removeKey storeFull.cache ok0) "k3"
                ⟨true, [], 10, effTTL storeFull none⟩) :=
  C5_set_respects_capacity storeFull "k3" true none none 10
    (by decide) (by decide)

/-- C6: after `set` with TTL `T` (nonzero) at time `t0`, a `get` at any
time up to and including `t0 + T` is a hit returning the stored entry
and bumping `hits` by one without touching the stored entries (a hit
never extends the lifetime); a `get` after `t0 + T` is a miss that
removes the entry and bumps `misses` by one; a `get` for an absent key
is a miss bumping `misses` by one. -/
theorem C6_ttl_get (s : AuthzCache) (r : AuthzRequest) (a : Bool)
    (rs : Option (List String)) (T t0 now : Int) (s' : AuthzCache)
    (hT : T ≠ 0) (hset : s.setReq r a rs (some T) t0 = Except.ok s') :
    (now ≤ t0 + T →
      s'.getReq r now =
        (some ⟨a, rs.getD [], t0, T⟩, { s' with hits := s'.hits + 1 }))
    ∧ (t0 + T < now →
      s'.getReq r now =
        (none, { s' with cache := removeKey s'.cache r.key,
                         misses := s'.misses + 1 }))
    ∧ (∀ (s2 : AuthzCache) (k : String), lookupEntry s2.cache k = none →
        s2.getK k now = (none, { s2 with misses := s2.misses + 1 })) := by
  have hl := (setK_lookup s r.key a rs (some T) t0 s' hset).1
  have hT2 : effTTL s (some T) = T := by
    simp only [effTTL]
    rw [if_neg hT]
  rw [hT2] at hl
  refine ⟨?_, ?_, ?_⟩
  · intro hnow
    have hexp : CacheEntry.is_expired ⟨a, rs.getD [], t0, T⟩ now = false := by
      simp only [CacheEntry.is_expired, gt_iff_lt, decide_eq_false_iff_not, not_lt]
      omega
    unfold AuthzCache.getReq
    rw [getK_eq_some s' r.key now _ hl, if_neg (by simp [hexp])]
  · intro hnow
    have hexp : CacheEntry.is_expired ⟨a, rs.getD [], t0, T⟩ now = true := by
      simp only [CacheEntry.is_expired, gt_iff_lt, decide_eq_true_eq]
      omega
    unfold AuthzCache.getReq
    rw [getK_eq_some s' r.key now _ hl, if_pos (by simp [hexp])]
  · intro s2 k hl2
    exact getK_eq_none s2 k now hl2

/-- C6 (witness): set at time 0 with TTL 60 into an empty store; a get
at 30 (and at the boundary this also holds up to 60) is a hit, a get at
61 is a miss removing the entry; an absent key is a miss. -/
theorem C6_witness :
    (∃ s', emptyStore.setReq reqA true none (some 60) 0 = Except.ok s'
      ∧ s'.getReq reqA 30 =
          (some ⟨true, [], 0, 60⟩, { s' with hits := s'.hits + 1 })
      ∧ s'.getReq reqA 61 =
          (none, { s' with cache := removeKey s'.cache reqA.key,
                           misses := s'.misses + 1 })
      ∧ emptyStore.getK reqB.key 30 =
          (none, { emptyStore with misses := emptyStore.misses + 1 })) := by
  refine ⟨{ emptyStore with
    cache := [(reqA.key, ⟨true, [], 0, 60⟩)] }, rfl, ?_, ?_, ?_⟩
  · exact (C6_ttl_get emptyStore reqA true none 60 0 30 _ (by norm_num) rfl).1
      (by norm_num)
  · exact (C6_ttl_get emptyStore reqA true none 60 0 61 _ (by norm_num) rfl).2.1
      (by norm_num)
  · exact (C6_ttl_get emptyStore reqA true none 60 0 30 _ (by norm_num) rfl).2.2
      emptyStore reqB.key rfl

/-- C7: with `bypass_cache` false, a fresh cache hit answers from the
cache with the same outcome for every provider behavior (no provider
call is consulted); on a miss, a transport error or a non-success HTTP
status propagates as an error and leaves no entry for the request in
the cache; only a successful response is cached, and the decision it
caches is `allowed = (decision == "allow")`. -/
theorem C7_check (r : AuthzRequest) (s : AuthzCache) (now : Int)
    (hnd : (s.cache.map Prod.fst).Nodup) (hmax : 1 ≤ s.max_size)
    (hlen : s.cache.length ≤ s.max_size) :
    (∀ e, lookupEntry s.cache r.key = some e → e.is_expired now = false →
      ∀ p, check r s false p now =
        (Except.ok e.allowed, { s with hits := s.hits + 1 }))
    ∧ (∀ s1, s.getReq r now = (none, s1) →
        (∀ msg, check r s false (ProviderOutcome.transportError msg) now =
            (Except.error msg, s1))
        ∧ (∀ resp err, raise_for_status resp = some err →
            check r s false (ProviderOutcome.response resp) now =
              (Except.error err, s1))
        ∧ lookupEntry s1.cache r.key = none
        ∧ (∀ resp, raise_for_status resp = none →
            ∃ s2, check r s false (ProviderOutcome.response resp) now =
                (Except.ok (resp.decision == some "allow"), s2)
              ∧ ∃ entry, lookupEntry s2.cache r.key = some entry
                  ∧ entry.allowed = (resp.decision == some "allow")
                  ∧ entry.timestamp = now)) := by
  constructor
  · intro e hl hexp p
    unfold check
    have hget : s.getReq r now = (some e, { s with hits := s.hits + 1 }) := by
      unfold AuthzCache.getReq
      rw [getK_eq_some s r.key now e hl, if_neg (by simp [hexp])]
    simp only [Bool.false_eq_true, if_false, hget]
  · intro s1 hmiss
    have hms := getK_miss_state s r.key now s1 hnd hmiss
    refine ⟨?_, ?_, hms.1, ?_⟩
    · intro msg
      unfold check
      simp only [Bool.false_eq_true, if_false, hmiss]
    · intro resp err hrs
      unfold check
      simp only [Bool.false_eq_true, if_false, hmiss, hrs]
    · intro resp hrs
      have hmax1 : 1 ≤ s1.max_size := by
        rw [hms.2.2.1]
        exact hmax
      have hlen1 : s1.cache.length ≤ s1.max_size := by
        rw [hms.2.2.1]
        exact le_trans hms.2.1 hlen
      obtain ⟨s2, hset, _⟩ := setK_ok s1 r.key (resp.decision == some "allow")
        (some (resp.reasons.getD [])) none now hmax1 hlen1
      have hl2 := (setK_lookup s1 r.key _ _ none now s2 hset).1
      refine ⟨s2, ?_, ⟨_, hl2, rfl, rfl⟩⟩
      unfold check
      have hset2 : s1.setReq r (resp.decision == some "allow")
          (some (resp.reasons.getD [])) none now = Except.ok s2 := hset
      simp only [Bool.false_eq_true, if_false, hmiss, hrs, hset2]

/-- C7 (witness): a hit on a populated store answers from the cache for
any provider outcome; on an empty store (a miss) a transport error and
a 503 response propagate without caching, and a 200 allow response is
cached. -/
theorem C7_witness :
    (∀ p, check reqA storeAB false p 10 =
      (Except.ok true, { storeAB with hits := storeAB.hits + 1 }))
    ∧ check reqB emptyStore false (ProviderOutcome.transportError "boom") 10 =
        (Except.error "boom", { emptyStore with misses := emptyStore.misses + 1 })
    ∧ check reqB emptyStore false
        (ProviderOutcome.response ⟨503, none, none⟩) 10 =
        (Except.error ("HTTP error " ++ toString 503),
          { emptyStore with misses := emptyStore.misses + 1 })
    ∧ (∃ s2, check reqB emptyStore false
          (ProviderOutcome.response ⟨200, some "allow", none⟩) 10 =
          (Except.ok ((some "allow" : Option String) == some "allow"), s2)
        ∧ ∃ entry, lookupEntry s2.cache reqB.key = some entry
            ∧ entry.allowed = ((some "allow" : Option String) == some "allow")
            ∧ entry.timestamp = 10) := by
  have hfixA := C7_check reqA storeAB 10 (by decide) (by decide) (by decide)
  have hfixB := C7_check reqB emptyStore 10 (by decide) (by decide) (by decide)
  have hmiss : emptyStore.getReq reqB 10 =
      (none, { emptyStore with misses := emptyStore.misses + 1 }) := rfl
  refine ⟨?_, ?_, ?_, ?_⟩
  · intro p
    exact hfixA.1 ⟨true, [], 0, 60⟩ (by decide) (by decide) p
  · exact (hfixB.2 _ hmiss).1 "boom"
  · exact (hfixB.2 _ hmiss).2.1 ⟨503, none, none⟩ _ rfl
  · exact (hfixB.2 _ hmiss).2.2.2 ⟨200, some "allow", none⟩ rfl

/-- C8: the key derivation is a pure function (hence deterministic and
stable across repeated calls); for two logically-equal requests whose
context mappings are permutations of one another (with unique context
keys, as in any mapping), it yields the same cache key, and a missing
context yields the same key as the empty mapping.  The source applies
SHA-256 on top of the canonical string; equal canonical strings give
equal digests. -/
theorem C8_make_key_canonical (app_id : Int)
    (principal_type principal_id action resource_type resource_id : String)
    (ctx1 ctx2 : List (String × JsonVal)) (hp : ctx1.Perm ctx2)
    (hnd : (ctx1.map Prod.fst).Nodup) :
    make_key app_id principal_type principal_id action resource_type
        resource_id (some ctx1) =
      make_key app_id principal_type principal_id action resource_type
        resource_id (some ctx2)
    ∧ make_key app_id principal_type principal_id action resource_type
        resource_id none =
      make_key app_id principal_type principal_id action resource_type
        resource_id (some []) := by
  constructor
  · have hctx : dumpsObj ctx1 = dumpsObj ctx2 := by
      unfold dumpsObj
      rw [insertionSort_keyLE_perm_eq ctx1 ctx2 hp hnd]
    simp only [make_key, Option.getD_some]
    rw [hctx]
  · rfl

/-- C8 (witness): the same context in two different insertion orders
yields the same key. -/
theorem C8_witness :
    make_key 1 "User" "alice" "view" "Document" "doc1"
        (some [("b", JsonVal.jint 2), ("a", JsonVal.jstr "x")]) =
      make_key 1 "User" "alice" "view" "Document" "doc1"
        (some [("a", JsonVal.jstr "x"), ("b", JsonVal.jint 2)]) :=
  (C8_make_key_canonical 1 "User" "alice" "view" "Document" "doc1"
    [("b", JsonVal.jint 2), ("a", JsonVal.jstr "x")]
    [("a", JsonVal.jstr "x"), ("b", JsonVal.jint 2)]
    (by decide) (by decide)).1

/-- C9: a frame whose buffered data fails structured parsing is dropped
at the blank-line boundary without raising and without tearing down the
stream: processing continues on the remaining lines with the pending
event type and data buffer reset; and any frame whose data parses is
dispatched as exactly one event followed by processing of the rest in
the reset state. -/
theorem C9_malformed_frame_recovery (parse : String → Option Payload)
    (etype : Option String) (dl rest : List String) (hne : dl ≠ [])
    (hjoin : String.intercalate "\n" dl ≠ "")
    (hbad : parse (String.intercalate "\n" dl) = none) :
    processLines parse etype dl ("" :: rest) = processLines parse none [] rest
    ∧ (∀ (et2 : Option String) (dl2 rest2 : List String) (p : Payload),
        dl2 ≠ [] → String.intercalate "\n" dl2 ≠ "" →
        parse (String.intercalate "\n" dl2) = some p →
        processLines parse et2 dl2 ("" :: rest2) =
          materializeEvent et2 p :: processLines parse none [] rest2) := by
  constructor
  · have hie : dl.isEmpty = false := by
      cases dl with
      | nil => exact absurd rfl hne
      | cons d ds => rfl
    have hpe : process_event parse etype (String.intercalate "\n" dl) = none := by
      unfold process_event
      rw [if_neg hjoin, hbad]
    show (match (if dl.isEmpty then none
        else process_event parse etype (String.intercalate "\n" dl)) with
      | some ev => ev :: processLines parse none [] rest
      | none => processLines parse none [] rest) =
      processLines parse none [] rest
    rw [hie, if_neg (by simp), hpe]
  · intro et2 dl2 rest2 p hne2 hjoin2 hgood
    have hie : dl2.isEmpty = false := by
      cases dl2 with
      | nil => exact absurd rfl hne2
      | cons d ds => rfl
    have hpe : process_event parse et2 (String.intercalate "\n" dl2) =
        some (materializeEvent et2 p) := by
      unfold process_event
      rw [if_neg hjoin2, hgood]
    show (match (if dl2.isEmpty then none
        else process_event parse et2 (String.intercalate "\n" dl2)) with
      | some ev => ev :: processLines parse none [] rest2
      | none => processLines parse none [] rest2) =
      materializeEvent et2 p :: processLines parse none [] rest2
    rw [hie, if_neg (by simp), hpe]

/-- C9 (witness): with a parser accepting exactly `"good"`, a frame
buffered as `"notjson"` is dropped and processing continues; a frame
buffered as `"good"` is dispatched as one event. -/
theorem C9_witness :
    processLines tparse none ["notjson"] ("" :: ["data: good", ""]) =
      processLines tparse none [] ["data: good", ""]
    ∧ processLines tparse none ["good"] ("" :: ["x"]) =
      materializeEvent none goodPayload :: processLines tparse none [] ["x"] := by
  have h := C9_malformed_frame_recovery tparse none ["notjson"]
    ["data: good", ""] (by simp) (by decide) rfl
  exact ⟨h.1, h.2 none ["good"] ["x"] goodPayload (by simp) (by decide) rfl⟩

/-- C10: when the store is exactly at capacity with no expired entries,
a `set` for a key already present still triggers the capacity branch: it
evicts the oldest entry — here one with a different key — then
overwrites the existing key, leaving the store strictly below
`max_size` with the oldest entry gone. -/
theorem C10_overwrite_at_capacity (s : AuthzCache) (k ok0 : String) (t0 : Int)
    (e : CacheEntry) (a : Bool) (rs : Option (List String)) (ttl : Option Int)
    (now : Int) (hnd : (s.cache.map Prod.fst).Nodup)
    (hfull : s.cache.length = s.max_size) (hmax : 1 ≤ s.max_size)
    (hmem : lookupEntry s.cache k = some e)
    (hfresh : ∀ p ∈ s.cache, p.2.is_expired now = false)
    (hold : oldestPair s.cache = some (ok0, t0)) (hne : ok0 ≠ k) :
    ∃ s', s.setK k a rs ttl now = Except.ok s'
      ∧ s'.cache.length + 1 = s.max_size
      ∧ lookupEntry s'.cache ok0 = none
      ∧ lookupEntry s'.cache k = some ⟨a, rs.getD [], now, effTTL s ttl⟩ := by
  simp only [AuthzCache.setK]
  have hceq : (if s.cache.length ≥ s.max_size then evict_expired s.cache now
      else s.cache) = s.cache := by
    split
    · exact evict_expired_eq_self s.cache now hfresh
    · rfl
  rw [hceq, if_pos (by omega), hold]
  refine ⟨_, rfl, ?_, ?_, ?_⟩
  · have hrem := length_removeKey_of_mem s.cache ok0
      (mem_keys_lookup s.cache ok0 (oldestPair_mem s.cache ok0 t0 hold))
    have hkmem : (lookupEntry (removeKey s.cache ok0) k).isSome := by
      rw [lookup_removeKey_ne s.cache ok0 k (fun hh => hne hh.symm), hmem]
      rfl
    have hins := length_insertEntry_of_mem (removeKey s.cache ok0) k
      ⟨a, rs.getD [], now, effTTL s ttl⟩ hkmem
    show (insertEntry (removeKey s.cache ok0) k _).length + 1 = s.max_size
    omega
  · show lookupEntry (insertEntry (removeKey s.cache ok0) k _) ok0 = none
    rw [lookup_insertEntry_ne _ k ok0 _ hne]
    exact lookup_removeKey_self s.cache ok0 hnd
  · exact lookup_insertEntry_self _ _ _

/-- C10 (witness): the two-entry store at capacity 2, overwriting the
key of the newer entry evicts the unrelated oldest entry and leaves the
store at size 1. -/
theorem C10_witness :
    ∃ s', storeFull.setK reqB.key true none none 10 = Except.ok s'
      ∧ s'.cache.length + 1 = storeFull.max_size
      ∧ lookupEntry s'.cache reqA.key = none
      ∧ lookupEntry s'.cache reqB.key =
          some ⟨true, [], 10, effTTL storeFull none⟩ :=
  C10_overwrite_at_capacity storeFull reqB.key reqA.key 0 ⟨false, [], 5, 60⟩
    true none none 10 (by decide) (by decide) (by decide) (by decide)
    (by decide) (by decide) (by decide)

end Beowulf
